import Mathlib

/-!
Verification of the submission intake and queue-ordering logic of the
Open Writing Leaderboard repository.

The development shallowly embeds the relevant TypeScript sources:
  - src/lib/rate-limit.ts            (IP normalization, rate limiter)
  - src/lib/huggingface.ts           (model reference validation)
  - src/app/api/submissions/route.ts (intake deduplication)
  - the public queue GET route       (queue filtering and ordering)
  - src/lib/vllm-params-configurable-schema.ts (parameter sanitizer)

JavaScript strings are modelled as Lean `String`/`List Char`; JSON numbers as
`Rat` (JSON cannot denote NaN or the infinities, so the `isNaN` guards in the
source are identically passed); epoch-millisecond timestamps as `Int`;
database rows as Lean structures and result sets as lists.
-/

namespace OWL

/-! ## Character-list models of the JavaScript string primitives

The TypeScript code uses platform string methods (`split`, `trim`,
`toLowerCase`, `endsWith`, `includes`, `replace`).  They are modelled here by
structurally recursive functions on `List Char`, matching the ECMAScript
behavior on the inputs the code handles.
-/

/-- Model of JS `s.split(sep)` for a single-character separator:
splitting never drops empty pieces, and the empty string yields `[[]]`. -/
def splitChar (sep : Char) : List Char → List (List Char)
  | [] => [[]]
  | c :: rest =>
    if c = sep then [] :: splitChar sep rest
    else
      match splitChar sep rest with
      | [] => [[c]]
      | g :: gs => (c :: g) :: gs

/-- Model of JS `s.split("::")`: split on non-overlapping occurrences of two
consecutive colons, scanning left to right. -/
def splitDoubleColon : List Char → List (List Char)
  | [] => [[]]
  | ':' :: ':' :: rest => [] :: splitDoubleColon rest
  | c :: rest =>
    match splitDoubleColon rest with
    | [] => [[c]]
    | g :: gs => (c :: g) :: gs

/-- Model of JS `array.join(sep)` for a single-character separator. -/
def joinChar (sep : Char) : List (List Char) → List Char
  | [] => []
  | [g] => g
  | g :: gs => g ++ sep :: joinChar sep gs

/-! ## IP normalization (src/lib/rate-limit.ts) -/

/-- Embedding of `expandIPv6`: expand the `::` shorthand of an IPv6 address to
its full 8-group form.  The group count subtraction is on `Nat`; the JS code
would throw on malformed addresses whose explicit groups already exceed 8
(`Array` of a negative length), a case outside well-formed addresses. -/
def expandIPv6 (ip : String) : String :=
  let parts := splitDoubleColon ip.data
  if parts.length == 1 then ip
  else
    let p0 := parts.headD []
    let p1 := parts.getD 1 []
    let left := if p0.isEmpty then [] else splitChar ':' p0
    let right := if p1.isEmpty then [] else splitChar ':' p1
    let missing := 8 - left.length - right.length
    let middle := List.replicate missing ['0']
    String.mk (joinChar ':' (left ++ middle ++ right))

/-- Embedding of `normalizeIpForRateLimit`: IPv4 addresses pass through
verbatim; IPv6 addresses (detected by a colon) are reduced to the textual
first four groups of their expanded form, suffixed with `::/64`. -/
def normalizeIpForRateLimit (ip : String) : String :=
  if ip.data.contains ':' then
    let expanded := expandIPv6 ip
    let groups := splitChar ':' expanded.data
    String.mk (joinChar ':' (groups.take 4)) ++ "::/64"
  else ip

/-- Numeric value of a hex digit, case-insensitive (specification-side
helper used to state what "the first 64 bits" of an address are). -/
def hexDigitVal (c : Char) : Option Nat :=
  if '0' ≤ c ∧ c ≤ '9' then some (c.toNat - '0'.toNat)
  else if 'a' ≤ c ∧ c ≤ 'f' then some (c.toNat - 'a'.toNat + 10)
  else if 'A' ≤ c ∧ c ≤ 'F' then some (c.toNat - 'A'.toNat + 10)
  else none

/-- Numeric value of one 16-bit group written as 1 to 4 hex digits. -/
def parseHexGroup (cs : List Char) : Option Nat :=
  if cs.length = 0 ∨ 4 < cs.length then none
  else cs.foldlM (fun acc c => (hexDigitVal c).map (fun v => acc * 16 + v)) 0

/-- Specification-side reading of "the first 64 bits" of a textual IPv6
address: expand the `::` shorthand, require exactly eight well-formed hex
groups, and return the numeric values of the first four. -/
def ipv6First64 (ip : String) : Option (List Nat) :=
  let groups := splitChar ':' (expandIPv6 ip).data
  if groups.length = 8 then (groups.take 4).mapM parseHexGroup else none

/-! ## Rate limiter (src/lib/rate-limit.ts) -/

def RATE_LIMIT_WINDOW_HOURS : Nat := 24

def MAX_SUBMISSIONS_PER_USER : Nat := 100

def MAX_SUBMISSIONS_PER_IP : Nat := 150

/-- The milliseconds in the 24-hour rate-limit window. -/
def windowMs : Int := (RATE_LIMIT_WINDOW_HOURS : Int) * 60 * 60 * 1000

/-- One persisted submissions row, restricted to the columns the rate
limiter reads.  `created_at` is an epoch-millisecond timestamp. -/
structure SubmissionRow where
  user_id : String
  created_ip : String
  created_at : Int
deriving DecidableEq, Repr

/-- Embedding of the `RateLimitResult` interface.  Optional fields are
`Option`; `resetAt` is an epoch-millisecond timestamp. -/
structure RateLimitResult where
  allowed : Bool
  reason : Option String
  userSubmissions : Option Nat
  ipSubmissions : Option Nat
  resetAt : Option Int
deriving DecidableEq, Repr

/-- The `windowStart` computed by `checkRateLimit`: 24 hours before now. -/
def windowStartOf (now : Int) : Int := now - windowMs

/-- Whether a row falls in the trailing window for a given user
(the Prisma `created_at: { gte: windowStart }` filter: lower bound
inclusive). -/
def inUserWindow (uid : String) (ws : Int) (s : SubmissionRow) : Bool :=
  s.user_id == uid && ws ≤ s.created_at

/-- Whether a row falls in the trailing window for a given IP hash. -/
def inIpWindow (ipHash : String) (ws : Int) (s : SubmissionRow) : Bool :=
  s.created_ip == ipHash && ws ≤ s.created_at

/-- The user submission count of `checkRateLimit` (`prisma.submissions.count`). -/
def countUserInWindow (db : List SubmissionRow) (uid : String) (ws : Int) : Nat :=
  (db.filter (inUserWindow uid ws)).length

/-- The IP submission count of `checkRateLimit`. -/
def countIpInWindow (db : List SubmissionRow) (ipHash : String) (ws : Int) : Nat :=
  (db.filter (inIpWindow ipHash ws)).length

/-- Model of `findFirst` with `orderBy: { created_at: "asc" }`: an element of
the list with minimal `created_at` (the first such element in database
order). -/
def minByCreated : List SubmissionRow → Option SubmissionRow
  | [] => none
  | s :: rest =>
    match minByCreated rest with
    | none => some s
    | some t => if s.created_at ≤ t.created_at then some s else some t

/-- The rejection message of the user-ceiling path (template literal with the
constants substituted). -/
def userCeilingReason : String :=
  "You have reached the maximum of 100 submissions per 24 hours"

/-- The rejection message of the IP-ceiling path. -/
def ipCeilingReason : String :=
  "Too many submissions from this network. Please try again later."

/-- Embedding of `checkRateLimit`.  The database is passed explicitly; `now`
is the clock reading (epoch ms).  `setHours(getHours() - 24)` is modelled as
subtracting 24 hours of milliseconds. -/
def checkRateLimit (db : List SubmissionRow) (now : Int)
    (userId ipHash : String) : RateLimitResult :=
  let ws := windowStartOf now
  let userSubmissions := countUserInWindow db userId ws
  if MAX_SUBMISSIONS_PER_USER ≤ userSubmissions then
    let oldestInWindow := minByCreated (db.filter (inUserWindow userId ws))
    let resetAt := oldestInWindow.map (fun s => s.created_at + windowMs)
    { allowed := false
      reason := some userCeilingReason
      userSubmissions := some userSubmissions
      ipSubmissions := none
      resetAt := resetAt }
  else
    let ipSubmissions := countIpInWindow db ipHash ws
    if MAX_SUBMISSIONS_PER_IP ≤ ipSubmissions then
      { allowed := false
        reason := some ipCeilingReason
        userSubmissions := none
        ipSubmissions := some ipSubmissions
        resetAt := none }
    else
      { allowed := true
        reason := none
        userSubmissions := some userSubmissions
        ipSubmissions := some ipSubmissions
        resetAt := none }

/-- Unfolding equation of `minByCreated` when the tail yields nothing. -/
theorem minByCreated_cons_none {rest : List SubmissionRow} (a : SubmissionRow)
    (hrec : minByCreated rest = none) : minByCreated (a :: rest) = some a := by
  show (match minByCreated rest with
    | none => some a
    | some t => if a.created_at ≤ t.created_at then some a else some t) = some a
  rw [hrec]

/-- Unfolding equation of `minByCreated` when the tail yields a minimum. -/
theorem minByCreated_cons_some {rest : List SubmissionRow} (a t : SubmissionRow)
    (hrec : minByCreated rest = some t) :
    minByCreated (a :: rest) =
      if a.created_at ≤ t.created_at then some a else some t := by
  show (match minByCreated rest with
    | none => some a
    | some t => if a.created_at ≤ t.created_at then some a else some t) =
      if a.created_at ≤ t.created_at then some a else some t
  rw [hrec]

/-- `minByCreated` fails only on the empty list. -/
theorem minByCreated_eq_none : ∀ {l : List SubmissionRow},
    minByCreated l = none → l = [] := by
  intro l h
  cases l with
  | nil => rfl
  | cons a rest =>
    cases hrec : minByCreated rest with
    | none => rw [minByCreated_cons_none a hrec] at h; cases h
    | some t =>
      rw [minByCreated_cons_some a t hrec] at h
      by_cases hle : a.created_at ≤ t.created_at
      · rw [if_pos hle] at h; cases h
      · rw [if_neg hle] at h; cases h

/-- `minByCreated` only returns elements of the list. -/
theorem minByCreated_mem : ∀ {l : List SubmissionRow} {s : SubmissionRow},
    minByCreated l = some s → s ∈ l := by
  intro l
  induction l with
  | nil => intro s h; simp [minByCreated] at h
  | cons a rest ih =>
    intro s h
    cases hrec : minByCreated rest with
    | none =>
      rw [minByCreated_cons_none a hrec] at h
      have : a = s := by injection h
      simp [← this]
    | some t =>
      rw [minByCreated_cons_some a t hrec] at h
      by_cases hle : a.created_at ≤ t.created_at
      · rw [if_pos hle] at h
        have : a = s := by injection h
        simp [← this]
      · rw [if_neg hle] at h
        have hts : t = s := by injection h
        exact List.mem_cons_of_mem a (ih (hrec.trans (by rw [hts])))

/-- `minByCreated` returns an element with minimal `created_at`. -/
theorem minByCreated_min : ∀ {l : List SubmissionRow} {s : SubmissionRow},
    minByCreated l = some s → ∀ t ∈ l, s.created_at ≤ t.created_at := by
  intro l
  induction l with
  | nil => intro s h; simp [minByCreated] at h
  | cons a rest ih =>
    intro s h t ht
    cases hrec : minByCreated rest with
    | none =>
      rw [minByCreated_cons_none a hrec] at h
      have hsa : a = s := by injection h
      have hrnil : rest = [] := minByCreated_eq_none hrec
      subst hrnil
      have hta : t = a := by simpa using ht
      rw [← hsa, hta]
    | some m =>
      rw [minByCreated_cons_some a m hrec] at h
      rcases List.mem_cons.1 ht with hta | htr
      · by_cases hle : a.created_at ≤ m.created_at
        · rw [if_pos hle] at h
          have hsa : a = s := by injection h
          rw [← hsa, hta]
        · rw [if_neg hle] at h
          have hsm : m = s := by injection h
          rw [← hsm, hta]
          exact le_of_lt (not_le.1 hle)
      · have hm : m.created_at ≤ t.created_at := ih hrec t htr
        by_cases hle : a.created_at ≤ m.created_at
        · rw [if_pos hle] at h
          have hsa : a = s := by injection h
          rw [← hsa]
          exact le_trans hle hm
        · rw [if_neg hle] at h
          have hsm : m = s := by injection h
          rw [← hsm]
          exact hm

/-- `minByCreated` succeeds on nonempty lists. -/
theorem minByCreated_isSome : ∀ {l : List SubmissionRow},
    l ≠ [] → (minByCreated l).isSome = true := by
  intro l h
  cases l with
  | nil => exact absurd rfl h
  | cons a rest =>
    simp only [minByCreated]
    cases minByCreated rest with
    | none => rfl
    | some t => by_cases hle : a.created_at ≤ t.created_at <;> simp [hle]

/-- C3 counterexample: the claim asserts that a user with ceiling minus one
submissions in the window is always allowed, but the IP-ceiling check can
still deny.  Here the user has 99 in-window submissions, while the shared IP
hash has 150, and the request is denied. -/
def c3dbCex : List SubmissionRow :=
  List.replicate 99 ⟨"u", "ip", 0⟩ ++ List.replicate 51 ⟨"v", "ip", 0⟩

set_option maxRecDepth 40000 in
/-- C3 counterexample: a user with exactly `ceiling - 1` in-window
submissions is denied because the IP ceiling is reached, refuting the claim
as stated. -/
theorem c3_rate_limit_counterexample :
    countUserInWindow c3dbCex "u" (windowStartOf 0) = MAX_SUBMISSIONS_PER_USER - 1 ∧
    (checkRateLimit c3dbCex 0 "u" "ip").allowed = false := by
  decide

/-- C3 (amended): a user with exactly the ceiling (100) of in-window
submissions is denied with `userSubmissions` equal to the ceiling; a user
with ceiling minus one in-window submissions is allowed, provided the IP
count in the window is below the IP ceiling (150). -/
theorem c3_rate_limit_ceiling (db : List SubmissionRow) (now : Int)
    (u ip : String) :
    (countUserInWindow db u (windowStartOf now) = MAX_SUBMISSIONS_PER_USER →
      (checkRateLimit db now u ip).allowed = false ∧
      (checkRateLimit db now u ip).userSubmissions = some MAX_SUBMISSIONS_PER_USER) ∧
    (countUserInWindow db u (windowStartOf now) = MAX_SUBMISSIONS_PER_USER - 1 →
      countIpInWindow db ip (windowStartOf now) < MAX_SUBMISSIONS_PER_IP →
      (checkRateLimit db now u ip).allowed = true) := by
  constructor
  · intro h
    simp [checkRateLimit, h]
  · intro h hip
    have h1 : ¬ (MAX_SUBMISSIONS_PER_USER ≤ countUserInWindow db u (windowStartOf now)) := by
      rw [h]; decide
    have h2 : ¬ (MAX_SUBMISSIONS_PER_IP ≤ countIpInWindow db ip (windowStartOf now)) :=
      not_le.2 hip
    simp [checkRateLimit, h1, h2]

/-- Concrete database for the C3 witness: 100 in-window submissions of one
user in the first scenario, 99 in the second. -/
def c3dbFull : List SubmissionRow := List.replicate 100 ⟨"u", "ip", 0⟩

/-- Concrete database for the second C3 scenario. -/
def c3dbUnder : List SubmissionRow := List.replicate 99 ⟨"u", "ip", 0⟩

set_option maxRecDepth 40000 in
/-- C3 witness: both ceiling scenarios evaluated at concrete databases. -/
theorem c3_rate_limit_ceiling_witness :
    ((checkRateLimit c3dbFull 0 "u" "ip").allowed = false ∧
      (checkRateLimit c3dbFull 0 "u" "ip").userSubmissions = some MAX_SUBMISSIONS_PER_USER) ∧
    (checkRateLimit c3dbUnder 0 "u" "ip").allowed = true :=
  ⟨(c3_rate_limit_ceiling c3dbFull 0 "u" "ip").1 (by decide),
   (c3_rate_limit_ceiling c3dbUnder 0 "u" "ip").2 (by decide) (by decide)⟩

/-- C9: when the user ceiling is reached the result carries a reset time
equal to the creation timestamp of the oldest in-window submission of the
user plus 24 hours; when instead the IP ceiling is reached the denial
carries no reset time. -/
theorem c9_resetAt_shape (db : List SubmissionRow) (now : Int) (u ip : String) :
    (MAX_SUBMISSIONS_PER_USER ≤ countUserInWindow db u (windowStartOf now) →
      ∃ s, s ∈ db.filter (inUserWindow u (windowStartOf now)) ∧
        (∀ t ∈ db.filter (inUserWindow u (windowStartOf now)),
          s.created_at ≤ t.created_at) ∧
        (checkRateLimit db now u ip).allowed = false ∧
        (checkRateLimit db now u ip).resetAt = some (s.created_at + windowMs)) ∧
    (countUserInWindow db u (windowStartOf now) < MAX_SUBMISSIONS_PER_USER →
      MAX_SUBMISSIONS_PER_IP ≤ countIpInWindow db ip (windowStartOf now) →
      (checkRateLimit db now u ip).allowed = false ∧
      (checkRateLimit db now u ip).resetAt = none) := by
  constructor
  · intro h
    have hne : db.filter (inUserWindow u (windowStartOf now)) ≠ [] := by
      intro hnil
      have hz : countUserInWindow db u (windowStartOf now) = 0 := by
        simp [countUserInWindow, hnil]
      rw [hz] at h
      simp [MAX_SUBMISSIONS_PER_USER] at h
    obtain ⟨s, hs⟩ := Option.isSome_iff_exists.1 (minByCreated_isSome hne)
    refine ⟨s, minByCreated_mem hs, minByCreated_min hs, ?_, ?_⟩
    · simp [checkRateLimit, h]
    · simp [checkRateLimit, h, hs]
  · intro h hip
    have h1 : ¬ (MAX_SUBMISSIONS_PER_USER ≤ countUserInWindow db u (windowStartOf now)) :=
      not_le.2 h
    simp [checkRateLimit, h1, hip]

/-- Concrete database for the C9 user-ceiling witness: 100 in-window rows
created at time 5, with "now" chosen so the window lower bound is exactly 5
(the bound is inclusive). -/
def c9dbUser : List SubmissionRow := List.replicate 100 ⟨"u", "ip", 5⟩

/-- Concrete database for the C9 IP-ceiling witness: 150 rows sharing the IP
hash but belonging to another user. -/
def c9dbIp : List SubmissionRow := List.replicate 150 ⟨"v", "ip", 0⟩

set_option maxRecDepth 40000 in
/-- C9 witness: both denial paths evaluated at concrete databases. -/
theorem c9_resetAt_shape_witness :
    (checkRateLimit c9dbUser 86400005 "u" "ip").resetAt = some (5 + windowMs) ∧
    (checkRateLimit c9dbIp 0 "u" "ip").allowed = false ∧
    (checkRateLimit c9dbIp 0 "u" "ip").resetAt = none := by
  refine ⟨?_, ?_⟩
  · obtain ⟨s, hmem, -, -, hr⟩ :=
      (c9_resetAt_shape c9dbUser 86400005 "u" "ip").1 (by decide)
    have hs : s = ⟨"u", "ip", 5⟩ := by
      have : s ∈ c9dbUser := (List.mem_filter.1 hmem).1
      exact List.eq_of_mem_replicate this
    rw [hr, hs]
  · exact (c9_resetAt_shape c9dbIp 0 "u" "ip").2 (by decide) (by decide)

/-- C4 counterexample: `"2001:db8::1"` and `"2001:0db8::1"` denote the same
first 64 bits, yet the normalizer keeps the leading-zero spelling and yields
two distinct keys. -/
theorem c4_subnet_counterexample :
    ipv6First64 "2001:db8::1" = some [8193, 3512, 0, 0] ∧
    ipv6First64 "2001:0db8::1" = some [8193, 3512, 0, 0] ∧
    normalizeIpForRateLimit "2001:db8::1" ≠ normalizeIpForRateLimit "2001:0db8::1" := by
  decide

/-- C4 (amended): for IPv6 inputs, the normalizer yields the identical key
whenever the `::`-expanded forms agree textually on the first four
colon-separated groups; numeric agreement of the first 64 bits alone does not
suffice. -/
theorem c4_subnet_collapsing (a b : String)
    (ha : a.data.contains ':' = true) (hb : b.data.contains ':' = true)
    (h : (splitChar ':' (expandIPv6 a).data).take 4 =
         (splitChar ':' (expandIPv6 b).data).take 4) :
    normalizeIpForRateLimit a = normalizeIpForRateLimit b := by
  simp only [normalizeIpForRateLimit, ha, hb, if_true, h]

/-- C4 witness: two privacy-extension-style addresses of one /64 subnet
collapse to one key. -/
theorem c4_subnet_collapsing_witness :
    normalizeIpForRateLimit "2001:db8::1" = normalizeIpForRateLimit "2001:db8::ffff" :=
  c4_subnet_collapsing "2001:db8::1" "2001:db8::ffff" (by decide) (by decide) (by decide)

/-! ## Queue ordering (public queue GET route)

The route fetches submissions in the four active statuses, excluding
SUBMITTED rows with priority 0, ordered by `created_at` ascending, and then
sorts them in JavaScript with a comparator.  `Array.prototype.sort` is
stable per the ECMAScript specification and is modelled as Mathlib's stable
`List.insertionSort`.
-/

/-- The submission lifecycle statuses (the Prisma `submissionstatus` enum). -/
inductive SubmissionStatus where
  | SUBMITTED
  | QUEUED
  | STARTING
  | RUNNING
  | SUCCEEDED
  | FAILED
  | TIMEOUT
  | CANCELLED
deriving DecidableEq, Repr

/-- One fetched submissions row, restricted to the selected columns the
queue route reads.  Timestamps are epoch milliseconds. -/
structure QueueRow where
  id : String
  status : SubmissionStatus
  priority_score : Int
  created_at : Int
  started_at : Option Int
deriving DecidableEq, Repr

/-- `runningStatuses.includes(status)` for `["RUNNING", "STARTING"]`. -/
def isRunningRow (s : QueueRow) : Bool :=
  s.status == SubmissionStatus.RUNNING || s.status == SubmissionStatus.STARTING

/-- `a.started_at ? new Date(a.started_at).getTime() : 0`: a missing start
time is treated as epoch 0, exactly as the code does. -/
def startTimeOf (s : QueueRow) : Int := s.started_at.getD 0

/-- `Number.MAX_SAFE_INTEGER`. -/
def maxSafeInteger : Int := 9007199254740991

/-- Embedding of `getSortValue`: positive priorities stay as-is, the
sentinel 0 becomes `MAX_SAFE_INTEGER - 1`, anything else (the sentinel -1)
becomes `MAX_SAFE_INTEGER`. -/
def getSortValue (p : Int) : Int :=
  if 0 < p then p else if p = 0 then maxSafeInteger - 1 else maxSafeInteger

/-- Embedding of the queue comparator passed to `sort`. -/
def compareQueue (a b : QueueRow) : Int :=
  if isRunningRow a && !(isRunningRow b) then -1
  else if isRunningRow b && !(isRunningRow a) then 1
  else if isRunningRow a && isRunningRow b then startTimeOf a - startTimeOf b
  else
    if getSortValue a.priority_score ≠ getSortValue b.priority_score then
      getSortValue a.priority_score - getSortValue b.priority_score
    else a.created_at - b.created_at

/-- The four statuses the queue `where` clause admits. -/
def activeStatuses : List SubmissionStatus :=
  [SubmissionStatus.SUBMITTED, SubmissionStatus.QUEUED,
   SubmissionStatus.STARTING, SubmissionStatus.RUNNING]

/-- Embedding of the queue `where` clause: active status, and not a
SUBMITTED row whose priority is still the unassigned sentinel 0. -/
def queueWhere (s : QueueRow) : Bool :=
  activeStatuses.contains s.status &&
    !(s.status == SubmissionStatus.SUBMITTED && s.priority_score == 0)

/-- The stable JavaScript sort with the queue comparator. -/
def sortQueue (l : List QueueRow) : List QueueRow :=
  List.insertionSort (fun a b => compareQueue a b ≤ 0) l

/-- The `queued` list returned by the queue GET route, as a function of the
submissions table (the table is assumed listed in `created_at` order where
the ordering matters; see the theorems). -/
def queuedResult (table : List QueueRow) : List QueueRow :=
  sortQueue (table.filter queueWhere)

/-- Code-side sort key, first component: running rows before the rest. -/
def runClass (s : QueueRow) : Nat := if isRunningRow s then 0 else 1

/-- Code-side sort key, second component. -/
def codePrimary (s : QueueRow) : Int :=
  if isRunningRow s then startTimeOf s else getSortValue s.priority_score

/-- Code-side sort key, tie component (the comparator compares creation
times only for non-running pairs). -/
def codeTie (s : QueueRow) : Int :=
  if isRunningRow s then 0 else s.created_at

/-- The comparator is antisymmetric: swapping the arguments negates it. -/
theorem compareQueue_swap (a b : QueueRow) :
    compareQueue b a = - compareQueue a b := by
  cases hA : isRunningRow a <;> cases hB : isRunningRow b <;>
    simp only [compareQueue, hA, hB, Bool.true_and, Bool.false_and,
      Bool.and_true, Bool.and_false, Bool.not_true, Bool.not_false,
      Bool.and_self, if_true, if_false, ite_true, ite_false] <;>
    by_cases hsv : getSortValue a.priority_score = getSortValue b.priority_score <;>
    simp [hsv, Ne, eq_comm] <;> omega

/-- Characterization of a non-positive comparator value as a lexicographic
comparison of the code-side sort key. -/
theorem compareQueue_le_iff (a b : QueueRow) :
    compareQueue a b ≤ 0 ↔
      (runClass a < runClass b ∨
        (runClass a = runClass b ∧
          (codePrimary a < codePrimary b ∨
            (codePrimary a = codePrimary b ∧ codeTie a ≤ codeTie b)))) := by
  cases hA : isRunningRow a <;> cases hB : isRunningRow b <;>
    simp only [compareQueue, runClass, codePrimary, codeTie, hA, hB,
      Bool.true_and, Bool.false_and, Bool.and_true, Bool.and_false,
      Bool.not_true, Bool.not_false, Bool.and_self, if_true, if_false,
      ite_true, ite_false] <;>
    by_cases hsv : getSortValue a.priority_score = getSortValue b.priority_score <;>
    simp [hsv] <;> omega

/-- Characterization of a zero comparator value as equality of the
code-side sort key. -/
theorem compareQueue_eq_iff (a b : QueueRow) :
    compareQueue a b = 0 ↔
      (runClass a = runClass b ∧ codePrimary a = codePrimary b ∧
        codeTie a = codeTie b) := by
  cases hA : isRunningRow a <;> cases hB : isRunningRow b <;>
    simp only [compareQueue, runClass, codePrimary, codeTie, hA, hB,
      Bool.true_and, Bool.false_and, Bool.and_true, Bool.and_false,
      Bool.not_true, Bool.not_false, Bool.and_self, if_true, if_false,
      ite_true, ite_false] <;>
    by_cases hsv : getSortValue a.priority_score = getSortValue b.priority_score <;>
    simp [hsv] <;> omega

/-- The order actually realised in the displayed list: comparator strictly
smaller, or comparator tie resolved by creation time (the tie order the
stable sort inherits from the fetch order). -/
def stableLE (a b : QueueRow) : Prop :=
  compareQueue a b < 0 ∨ (compareQueue a b = 0 ∧ a.created_at ≤ b.created_at)

/-- The display order asserted by the specification, spelled from its words:
running/starting rows first (class 0) ordered by start time, then positive
priorities ascending (class 1), then the unassigned sentinel 0 (class 2),
then the held sentinel -1 (class 3), ties within a class broken by creation
time ascending. -/
def displayClass (s : QueueRow) : Nat :=
  if isRunningRow s then 0
  else if 0 < s.priority_score then 1
  else if s.priority_score = 0 then 2
  else 3

/-- Primary in-class sort key of the specification: start time for running
rows, the priority value itself for positive priorities, constant in the
sentinel classes. -/
def displayPrimary (s : QueueRow) : Int :=
  if isRunningRow s then startTimeOf s
  else if 0 < s.priority_score then s.priority_score
  else 0

/-- The specification-side display order (lexicographic on class, in-class
key, creation time). -/
def displayLE (a b : QueueRow) : Prop :=
  displayClass a < displayClass b ∨
    (displayClass a = displayClass b ∧
      (displayPrimary a < displayPrimary b ∨
        (displayPrimary a = displayPrimary b ∧ a.created_at ≤ b.created_at)))

/-- Priority scores the specification speaks about: the sentinel -1, the
sentinel 0, or a positive rank (bounded by the comparator's sentinel
encoding; database integers are far below `MAX_SAFE_INTEGER - 1`). -/
def priorityOK (s : QueueRow) : Prop :=
  s.priority_score = -1 ∨ (0 ≤ s.priority_score ∧ s.priority_score < maxSafeInteger - 1)

instance : DecidablePred priorityOK := fun s => by
  unfold priorityOK
  infer_instance

/-- If the comparator strictly prefers the reverse pair, the realised order
relates the reverse pair. -/
theorem stableLE_of_not_le {x b : QueueRow}
    (h : ¬ compareQueue x b ≤ 0) : stableLE b x := by
  left
  rw [compareQueue_swap]
  omega

/-- A non-positive comparator value plus the fetch-order tie yields the
realised order. -/
theorem stableLE_of_le {x y : QueueRow} (h : compareQueue x y ≤ 0)
    (hc : x.created_at ≤ y.created_at) : stableLE x y := by
  rcases lt_or_eq_of_le h with hlt | heq
  · exact Or.inl hlt
  · exact Or.inr ⟨heq, hc⟩

/-- The comparator order is transitive through the realised order. -/
theorem compareQueue_le_trans {x b c : QueueRow} (hxb : compareQueue x b ≤ 0)
    (hbc : compareQueue b c ≤ 0) : compareQueue x c ≤ 0 := by
  rw [compareQueue_le_iff] at hxb hbc ⊢
  omega

/-- Inserting a row that was fetched before every row of an already
correctly ordered list preserves the realised order. -/
theorem pairwise_stableLE_orderedInsert (x : QueueRow) :
    ∀ L : List QueueRow, L.Pairwise stableLE →
      (∀ y ∈ L, x.created_at ≤ y.created_at) →
      (List.orderedInsert (fun a b => compareQueue a b ≤ 0) x L).Pairwise stableLE := by
  intro L
  induction L with
  | nil => intro _ _; simp [List.orderedInsert]
  | cons b L ih =>
    intro hp hx
    rw [List.orderedInsert]
    by_cases hxb : compareQueue x b ≤ 0
    · rw [if_pos hxb]
      refine List.Pairwise.cons ?_ hp
      intro z hz
      rcases List.mem_cons.1 hz with rfl | hzL
      · exact stableLE_of_le hxb (hx _ (List.mem_cons_self _ _))
      · have hbz : stableLE b z := (List.pairwise_cons.1 hp).1 z hzL
        have hxz : compareQueue x z ≤ 0 := by
          rcases hbz with hlt | ⟨heq, -⟩
          · exact compareQueue_le_trans hxb (le_of_lt hlt)
          · exact compareQueue_le_trans hxb (le_of_eq heq)
        exact stableLE_of_le hxz (hx z (List.mem_cons_of_mem b hzL))
    · rw [if_neg hxb]
      have hp' := List.pairwise_cons.1 hp
      refine List.Pairwise.cons ?_ (ih hp'.2 fun y hy => hx y (List.mem_cons_of_mem b hy))
      intro z hz
      rcases (List.mem_orderedInsert _).1 hz with rfl | hzL
      · exact stableLE_of_not_le hxb
      · exact hp'.1 z hzL

/-- The stable sort of a list fetched in creation order realises the
comparator order with creation-time tie-breaking. -/
theorem pairwise_stableLE_insertionSort :
    ∀ l : List QueueRow, l.Pairwise (fun a b => a.created_at ≤ b.created_at) →
      (List.insertionSort (fun a b => compareQueue a b ≤ 0) l).Pairwise stableLE := by
  intro l
  induction l with
  | nil => intro _; simp [List.insertionSort]
  | cons x xs ih =>
    intro hp
    have hp' := List.pairwise_cons.1 hp
    rw [List.insertionSort]
    refine pairwise_stableLE_orderedInsert x _ (ih hp'.2) ?_
    intro y hy
    exact hp'.1 y ((List.perm_insertionSort _ _).mem_iff.1 hy)

set_option maxHeartbeats 2000000 in
/-- Bridge from the realised order to the display order stated by the
specification, for rows whose priority scores lie in the specified range. -/
theorem stableLE_imp_displayLE {a b : QueueRow}
    (hpa : priorityOK a) (hpb : priorityOK b) (h : stableLE a b) :
    displayLE a b := by
  have hswap := compareQueue_swap a b
  have hle1 := compareQueue_le_iff a b
  have hle2 := compareQueue_le_iff b a
  have heq1 := compareQueue_eq_iff a b
  unfold stableLE at h
  unfold displayLE
  unfold priorityOK at hpa hpb
  rcases hpa with hpa | hpa <;> rcases hpb with hpb | hpb <;>
    cases hA : isRunningRow a <;> cases hB : isRunningRow b <;>
    simp [displayClass, displayPrimary, runClass, codePrimary, codeTie,
      getSortValue, hA, hB] at hle1 hle2 heq1 ⊢ <;>
    first
      | (split_ifs at hle1 hle2 heq1 ⊢ <;> omega)
      | (split_ifs at hle1 hle2 heq1 <;> omega)
      | (split_ifs <;> omega)
      | omega

/-- C2: on every snapshot fetched in creation order with priority scores in
the specified range, the queue GET produces exactly the filtered rows,
arranged so that running/starting rows come first ordered by start time
ascending, then positive priorities ascending, then the sentinel 0, then
the sentinel -1 last, ties within a class broken by creation time ascending
(rows without a start time count as started at epoch 0, as in the code). -/
theorem c2_queue_order (table : List QueueRow)
    (hsorted : table.Pairwise (fun a b => a.created_at ≤ b.created_at))
    (hprio : ∀ s ∈ table, priorityOK s) :
    (queuedResult table).Perm (table.filter queueWhere) ∧
    (queuedResult table).Pairwise displayLE := by
  constructor
  · exact List.perm_insertionSort _ _
  · have hpair : (queuedResult table).Pairwise stableLE :=
      pairwise_stableLE_insertionSort _ (hsorted.filter queueWhere)
    refine List.Pairwise.imp_of_mem ?_ hpair
    intro a b ha hb hab
    have hma : a ∈ table :=
      List.mem_of_mem_filter ((List.perm_insertionSort _ _).mem_iff.1 ha)
    have hmb : b ∈ table :=
      List.mem_of_mem_filter ((List.perm_insertionSort _ _).mem_iff.1 hb)
    exact stableLE_imp_displayLE (hprio a hma) (hprio b hmb) hab

/-- Concrete snapshot for the C2 witness: one RUNNING row, one QUEUED row
with priority 2, one QUEUED row held at -1, fetched in creation order. -/
def c2table : List QueueRow :=
  [⟨"r1", SubmissionStatus.RUNNING, 0, 1, some 10⟩,
   ⟨"r2", SubmissionStatus.QUEUED, 2, 2, none⟩,
   ⟨"r3", SubmissionStatus.QUEUED, -1, 3, none⟩]

/-- C2 witness: the ordering theorem applied to a concrete snapshot. -/
theorem c2_queue_order_witness :
    (queuedResult c2table).Perm (c2table.filter queueWhere) ∧
    (queuedResult c2table).Pairwise displayLE :=
  c2_queue_order c2table (by decide) (by decide)

/-- C10: the queued list never contains a SUBMITTED row whose priority
score is the unassigned sentinel 0: the where-clause filters such rows out
before sorting. -/
theorem c10_queue_excludes_unassigned (table : List QueueRow) (s : QueueRow)
    (hs : s ∈ queuedResult table) :
    ¬ (s.status = SubmissionStatus.SUBMITTED ∧ s.priority_score = 0) := by
  have hmem : s ∈ table.filter queueWhere :=
    (List.perm_insertionSort _ _).mem_iff.1 hs
  have hw : queueWhere s = true := List.of_mem_filter hmem
  rintro ⟨h1, h2⟩
  simp [queueWhere, h1, h2, activeStatuses] at hw

/-- Concrete row for the C10 witness. -/
def c10row : QueueRow := ⟨"a", SubmissionStatus.QUEUED, 1, 0, none⟩

/-- C10 witness: the exclusion theorem applied to a concrete queue. -/
theorem c10_queue_excludes_unassigned_witness :
    ¬ (c10row.status = SubmissionStatus.SUBMITTED ∧ c10row.priority_score = 0) :=
  c10_queue_excludes_unassigned [c10row] c10row (by decide)

/-! ## Parameter sanitizer (src/lib/vllm-params-configurable-schema.ts)

The untrusted payload arrives as parsed JSON (`request.json()`), modelled by
`JVal`.  JSON cannot denote `NaN` or the infinities, so numbers are `Rat`
and the source's `isNaN` guards are identically passed.  JavaScript objects
have unique keys; the object model is an association list and lookups take
the first match.
-/

/-- Parsed JSON values. -/
inductive JVal where
  | null
  | bool (b : Bool)
  | num (q : Rat)
  | str (s : String)
  | arr (items : List JVal)
  | obj (fields : List (String × JVal))

/-- JavaScript truthiness of a JSON value. -/
def JVal.truthy : JVal → Bool
  | JVal.null => false
  | JVal.bool b => b
  | JVal.num q => q != 0
  | JVal.str s => s != ""
  | JVal.arr _ => true
  | JVal.obj _ => true

/-- `typeof v === "object"` (true for null, arrays and plain objects). -/
def JVal.isObjectType : JVal → Bool
  | JVal.null => true
  | JVal.arr _ => true
  | JVal.obj _ => true
  | _ => false

/-- The guard `value && typeof value === "object"`. -/
def truthyObject (v : JVal) : Bool := v.truthy && v.isObjectType

/-- JS property access `v[k]`: `none` models `undefined` (non-objects and
arrays have none of the named properties the sanitizer reads). -/
def jGet (v : JVal) (k : String) : Option JVal :=
  match v with
  | JVal.obj fields => (fields.find? (fun f => f.1 == k)).map Prod.snd
  | _ => none

/-- `Object.entries(v)`: object fields in order; array elements under their
decimal indices.  Only values passing `truthyObject` reach this in the
sanitizer, so the other cases are unreachable there. -/
def entriesOf (v : JVal) : List (String × JVal) :=
  match v with
  | JVal.obj fields => fields
  | JVal.arr items => items.enum.map (fun p => (toString p.1, p.2))
  | _ => []

/-- An emitted argument value: `null` for presence flags, or a string or
number (the `value: string | number | null` of the `VllmArg` interface). -/
inductive ArgValue where
  | null
  | str (s : String)
  | num (q : Rat)
deriving DecidableEq, Repr

/-- Embedding of the `VllmArg` interface. -/
structure VllmArg where
  arg : String
  value : ArgValue
deriving DecidableEq, Repr

/-- Embedding of the `VllmArgsOutput` interface; `envVars` is the object in
insertion order. -/
structure VllmArgsOutput where
  args : List VllmArg
  envVars : List (String × String)
deriving DecidableEq, Repr

/-- One field of the engine-parameter schema.  Only the data the sanitizer
reads is carried: the CLI argument string, numeric bounds, and select
options (with the `Not Set` option as `none`).  UI-only fields (label,
description, placeholder, step, default) are omitted. -/
inductive EngineField where
  | number (arg : String) (minB maxB : Option Rat)
  | select (arg : String) (options : List (Option String))
  | text (arg : String)
  | boolean (arg : String)
deriving DecidableEq, Repr

/-- The CLI argument string of a schema field. -/
def EngineField.arg : EngineField → String
  | EngineField.number a _ _ => a
  | EngineField.select a _ => a
  | EngineField.text a => a
  | EngineField.boolean a => a

/-- Embedding of `vllmParamsSchema.engineParams` (0.5 and 0.98 written as
rationals). -/
def engineParamsSchema : List (String × EngineField) :=
  [("gpu-memory-utilization",
      EngineField.number "--gpu-memory-utilization" (some (mkRat 1 2)) (some (mkRat 49 50))),
   ("max-model-len", EngineField.number "--max-model-len" (some 16000) (some 65536)),
   ("dtype", EngineField.select "--dtype" [none, some "auto", some "float16", some "bfloat16"]),
   ("quantization", EngineField.select "--quantization"
      [none, some "aqlm", some "awq", some "awq_marlin", some "bitsandbytes",
       some "compressed-tensors", some "deepspeedfp", some "experts_int8",
       some "fbgemm_fp8", some "fp8", some "gguf", some "gptq", some "gptq_marlin",
       some "gptq_marlin_24", some "marlin", some "modelopt", some "neuron_quant",
       some "qqq", some "tpu_int8"]),
   ("kv-cache-dtype", EngineField.select "--kv-cache-dtype"
      [none, some "auto", some "fp8", some "fp8_e4m3", some "fp8_e5m2"]),
   ("tokenizer", EngineField.text "--tokenizer"),
   ("tokenizer-mode", EngineField.select "--tokenizer-mode"
      [none, some "auto", some "slow", some "mistral"]),
   ("enforce-eager", EngineField.boolean "--enforce-eager"),
   ("enable-prefix-caching", EngineField.boolean "--enable-prefix-caching"),
   ("max-num-seqs", EngineField.number "--max-num-seqs" (some 1) (some 1024)),
   ("max-num-batched-tokens", EngineField.number "--max-num-batched-tokens" (some 1) (some 131072)),
   ("max-parallel-loading-workers",
      EngineField.number "--max-parallel-loading-workers" (some 1) (some 32)),
   ("enable-expert-parallel", EngineField.boolean "--enable-expert-parallel"),
   ("disable-custom-all-reduce", EngineField.boolean "--disable-custom-all-reduce")]

/-- Embedding of `vllmParamsSchema.envVars` (key and option values). -/
def envVarsSchema : List (String × List (Option String)) :=
  [("VLLM_ATTENTION_BACKEND",
      [none, some "FLASH_ATTN", some "XFORMERS", some "FLASHINFER", some "TRITON_MLA"]),
   ("VLLM_USE_V1", [none, some "1", some "0"]),
   ("VLLM_USE_TRITON_FLASH_ATTN", [none, some "1", some "0"]),
   ("VLLM_DISABLE_FLASHINFER", [none, some "1", some "0"]),
   ("VLLM_USE_FLASHINFER_SAMPLER", [none, some "1", some "0"]),
   ("VLLM_USE_TRTLLM_ATTENTION", [none, some "1", some "0"]),
   ("VLLM_WORKER_MULTIPROC_METHOD", [none, some "spawn", some "fork"])]

/-- The `argToConfig` lookup built by the sanitizer, keyed by the CLI
argument string.  The JS record keeps the last binding per key; the
schema's argument strings are pairwise distinct, so first-match lookup
coincides. -/
def argToConfig (a : String) : Option EngineField :=
  (engineParamsSchema.map Prod.snd).find? (fun c => c.arg == a)

/-- `getAllowedEnvVars()` as a list of keys. -/
def allowedEnvVars : List String := envVarsSchema.map Prod.fst

/-- `getEnvVarValidValues()[k]`: the non-null option values of key `k`. -/
def envVarValidValues (k : String) : List String :=
  match envVarsSchema.find? (fun e => e.1 == k) with
  | some e => e.2.filterMap id
  | none => []

/-- Model of the ECMAScript trim-target character class used by the code
(ordinary ASCII whitespace; exotic Unicode space characters are outside the
model). -/
def jsWhitespace (c : Char) : Bool := c.isWhitespace

/-- Model of JS `s.trim()`. -/
def jsTrim (s : String) : String :=
  String.mk (((s.data.dropWhile jsWhitespace).reverse.dropWhile jsWhitespace).reverse)

/-- The character class kept by `replace(/[^a-zA-Z0-9_\-\/\.]/g, "")`. -/
def allowedTextChar (c : Char) : Bool :=
  c.isAlphanum || c == '_' || c == '-' || c == '/' || c == '.'

/-- Model of the text sanitation `replace` call: strip every character
outside the allowed class. -/
def sanitizeTextValue (s : String) : String :=
  String.mk (s.data.filter allowedTextChar)

/-- The clamping of a number argument to `[min, max]` (each bound applied
only when declared, in source order). -/
def clampValue (minB maxB : Option Rat) (q : Rat) : Rat :=
  let q1 := match minB with
    | some m => if q < m then m else q
    | none => q
  match maxB with
  | some M => if M < q1 then M else q1
  | none => q1

/-- Validation of a single argument value against its schema field: boolean
flags only as literal `null`; numbers clamped; selects against the option
list; text trimmed and stripped, dropped if empty. -/
def sanitizeArgValue (cfg : EngineField) (value : Option JVal) : Option ArgValue :=
  match cfg, value with
  | EngineField.boolean _, some JVal.null => some ArgValue.null
  | EngineField.number _ minB maxB, some (JVal.num q) =>
      some (ArgValue.num (clampValue minB maxB q))
  | EngineField.select _ opts, some (JVal.str v) =>
      if (opts.filterMap id).contains v then some (ArgValue.str v) else none
  | EngineField.text _, some (JVal.str v) =>
      if jsTrim v = "" then none
      else if sanitizeTextValue (jsTrim v) = "" then none
      else some (ArgValue.str (sanitizeTextValue (jsTrim v)))
  | _, _ => none

/-- Processing of one element of the `args` array: skip non-objects, skip
non-string `arg` names, skip names absent from the schema, and validate the
value by field type. -/
def sanitizeArgItem (item : JVal) : Option VllmArg :=
  if truthyObject item = false then none
  else
    match jGet item "arg" with
    | some (JVal.str a) =>
      match argToConfig a with
      | some cfg => (sanitizeArgValue cfg (jGet item "value")).map (fun v => ⟨a, v⟩)
      | none => none
    | _ => none

/-- Validation of one `envVars` entry: key in the whitelist, value a string
among the declared option values. -/
def sanitizeEnvPair (kv : String × JVal) : Option (String × String) :=
  if allowedEnvVars.contains kv.1 = false then none
  else
    match kv.2 with
    | JVal.str v => if (envVarValidValues kv.1).contains v then some (kv.1, v) else none
    | _ => none

/-- JS object assignment `o[k] = v`: overwrite in place when the key
exists, append otherwise. -/
def insertAssign (l : List (String × String)) (k v : String) : List (String × String) :=
  match l with
  | [] => [(k, v)]
  | (k0, v0) :: rest =>
    if k0 == k then (k0, v) :: rest else (k0, v0) :: insertAssign rest k v

/-- The `envVars` accumulation loop. -/
def sanitizeEnvList (entries : List (String × JVal)) : List (String × String) :=
  entries.foldl (fun acc kv =>
    match sanitizeEnvPair kv with
    | some p => insertAssign acc p.1 p.2
    | none => acc) []

/-- Embedding of `validateAndSanitizeVllmArgs`. -/
def validateAndSanitizeVllmArgs (input : JVal) : VllmArgsOutput :=
  if truthyObject input = false then ⟨[], []⟩
  else
    { args :=
        match jGet input "args" with
        | some (JVal.arr items) => items.filterMap sanitizeArgItem
        | _ => []
      envVars :=
        match jGet input "envVars" with
        | some ev => if truthyObject ev then sanitizeEnvList (entriesOf ev) else []
        | none => [] }

/-- The JSON value the runtime representation of an emitted argument value
denotes. -/
def ArgValue.toJVal : ArgValue → JVal
  | ArgValue.null => JVal.null
  | ArgValue.str s => JVal.str s
  | ArgValue.num q => JVal.num q

/-- The JSON object denoted by an emitted argument entry. -/
def encodeArg (a : VllmArg) : JVal :=
  JVal.obj [("arg", JVal.str a.arg), ("value", a.value.toJVal)]

/-- The JSON value denoted by a sanitizer output, as it would re-enter the
sanitizer. -/
def VllmArgsOutput.toJVal (o : VllmArgsOutput) : JVal :=
  JVal.obj [("args", JVal.arr (o.args.map encodeArg)),
            ("envVars", JVal.obj (o.envVars.map (fun kv => (kv.1, JVal.str kv.2))))]

/-- The argument strings of the whitelist schema. -/
def schemaArgStrings : List String :=
  (engineParamsSchema.map Prod.snd).map EngineField.arg

/-- Clamping to declared bounds is idempotent. -/
theorem clampValue_idem (minB maxB : Option Rat) (q : Rat) :
    clampValue minB maxB (clampValue minB maxB q) = clampValue minB maxB q := by
  unfold clampValue
  rcases minB with _ | m <;> rcases maxB with _ | M <;>
    simp only [] <;> split_ifs <;> first | rfl | linarith

/-- `dropWhile` is the identity on lists none of whose elements satisfy the
predicate. -/
theorem dropWhile_eq_self_of_none {p : Char → Bool} :
    ∀ {cs : List Char}, (∀ c ∈ cs, p c = false) → cs.dropWhile p = cs := by
  intro cs h
  cases cs with
  | nil => rfl
  | cons c rest => simp [List.dropWhile_cons, h c (List.mem_cons_self c rest)]

/-- Characters kept by the text sanitation are never trim targets. -/
theorem allowed_not_whitespace {c : Char} (h : allowedTextChar c = true) :
    jsWhitespace c = false := by
  cases hw : jsWhitespace c with
  | false => rfl
  | true =>
    exfalso
    have hc : ((c = ' ' ∨ c = '\t') ∨ c = '\x0d') ∨ c = '\n' := by
      simpa [jsWhitespace, Char.isWhitespace] using hw
    rcases hc with ((rfl | rfl) | rfl) | rfl <;> exact absurd h (by decide)

/-- Every character of a sanitized text value is in the allowed class. -/
theorem sanitizeTextValue_chars {s : String} :
    ∀ c ∈ (sanitizeTextValue s).data, allowedTextChar c = true := by
  intro c hc
  unfold sanitizeTextValue at hc
  exact List.of_mem_filter hc

/-- Trimming a sanitized text value changes nothing. -/
theorem jsTrim_sanitized (s : String) :
    jsTrim (sanitizeTextValue s) = sanitizeTextValue s := by
  unfold jsTrim
  have h1 : ∀ c ∈ (sanitizeTextValue s).data, jsWhitespace c = false :=
    fun c hc => allowed_not_whitespace (sanitizeTextValue_chars c hc)
  rw [dropWhile_eq_self_of_none h1]
  rw [dropWhile_eq_self_of_none (fun c hc => h1 c (List.mem_reverse.1 hc))]
  rw [List.reverse_reverse]

/-- The text sanitation is idempotent. -/
theorem sanitizeTextValue_idem (s : String) :
    sanitizeTextValue (sanitizeTextValue s) = sanitizeTextValue s := by
  have h : (s.data.filter allowedTextChar).filter allowedTextChar =
      s.data.filter allowedTextChar :=
    List.filter_eq_self.mpr (fun a ha => List.of_mem_filter ha)
  show String.mk ((s.data.filter allowedTextChar).filter allowedTextChar) = _
  rw [h]
  rfl

/-- A value accepted by the per-field validation is accepted unchanged when
re-validated. -/
theorem sanitizeArgValue_stable {cfg : EngineField} {w : Option JVal} {v : ArgValue}
    (h : sanitizeArgValue cfg w = some v) :
    sanitizeArgValue cfg (some v.toJVal) = some v := by
  rcases w with _ | jv
  · cases cfg <;> exact absurd h (by simp [sanitizeArgValue])
  · cases cfg <;> cases jv <;> simp only [sanitizeArgValue] at h <;> try cases h
    · -- number applied to a numeric value
      simp [sanitizeArgValue, ArgValue.toJVal, clampValue_idem]
    · -- select applied to a string value
      rename_i a opts s
      by_cases hc : (opts.filterMap id).contains s = true
      · rw [if_pos hc] at h
        cases h
        simp only [sanitizeArgValue, ArgValue.toJVal]
        rw [if_pos hc]
      · rw [if_neg hc] at h
        cases h
    · -- text applied to a string value
      rename_i a s
      by_cases h1 : jsTrim s = ""
      · rw [if_pos h1] at h; cases h
      · rw [if_neg h1] at h
        by_cases h2 : sanitizeTextValue (jsTrim s) = ""
        · rw [if_pos h2] at h; cases h
        · rw [if_neg h2] at h
          cases h
          have ht := jsTrim_sanitized (jsTrim s)
          have hid := sanitizeTextValue_idem (jsTrim s)
          simp only [sanitizeArgValue, ArgValue.toJVal]
          rw [ht, hid, if_neg h2, if_neg h2]
    · -- boolean applied to the literal null
      rfl

/-- The invariant of every emitted argument entry: its name resolves in the
schema and its value revalidates to itself. -/
def argOutputOK (a : VllmArg) : Prop :=
  ∃ cfg, argToConfig a.arg = some cfg ∧
    sanitizeArgValue cfg (some a.value.toJVal) = some a.value

/-- Every entry produced by the per-item validation satisfies the
invariant. -/
theorem sanitizeArgItem_ok {item : JVal} {a : VllmArg}
    (h : sanitizeArgItem item = some a) : argOutputOK a := by
  unfold sanitizeArgItem at h
  split at h
  · cases h
  · split at h
    all_goals try cases h
    rename_i aName hget
    split at h
    all_goals try cases h
    rename_i cfg hcfg
    rcases hsv : sanitizeArgValue cfg (jGet item "value") with _ | v
    · rw [hsv] at h; cases h
    · rw [hsv] at h
      simp only [Option.map_some'] at h
      cases h
      exact ⟨cfg, hcfg, sanitizeArgValue_stable hsv⟩

theorem truthyObject_encodeArg (a : VllmArg) : truthyObject (encodeArg a) = true := rfl

theorem jGet_encodeArg_arg (a : VllmArg) :
    jGet (encodeArg a) "arg" = some (JVal.str a.arg) := rfl

theorem jGet_encodeArg_value (a : VllmArg) :
    jGet (encodeArg a) "value" = some a.value.toJVal := rfl

/-- An entry satisfying the invariant is reproduced exactly when its JSON
encoding re-enters the per-item validation. -/
theorem sanitizeArgItem_encode {a : VllmArg} (h : argOutputOK a) :
    sanitizeArgItem (encodeArg a) = some a := by
  obtain ⟨cfg, hcfg, hval⟩ := h
  simp only [sanitizeArgItem, truthyObject_encodeArg, jGet_encodeArg_arg,
    jGet_encodeArg_value, hcfg, hval, Option.map_some']
  simp

/-- Every entry of the sanitized `args` list satisfies the invariant. -/
theorem sanitizeArgs_output_ok (items : List JVal) :
    ∀ a ∈ items.filterMap sanitizeArgItem, argOutputOK a := by
  intro a ha
  obtain ⟨item, -, hi⟩ := List.mem_filterMap.1 ha
  exact sanitizeArgItem_ok hi

/-- Re-sanitizing an encoded list of invariant-satisfying entries is the
identity. -/
theorem sanitizeArgs_encode {l : List VllmArg} (h : ∀ a ∈ l, argOutputOK a) :
    (l.map encodeArg).filterMap sanitizeArgItem = l := by
  induction l with
  | nil => rfl
  | cons a rest ih =>
    simp only [List.map_cons, List.filterMap_cons,
      sanitizeArgItem_encode (h a (List.mem_cons_self a rest))]
    rw [ih (fun b hb => h b (List.mem_cons_of_mem a hb))]

/-- The invariant of every emitted environment entry: it revalidates to
itself. -/
def envPairOK (p : String × String) : Prop :=
  sanitizeEnvPair (p.1, JVal.str p.2) = some p

/-- A pair accepted by the per-entry validation is accepted unchanged when
re-validated. -/
theorem sanitizeEnvPair_stable {kv : String × JVal} {p : String × String}
    (h : sanitizeEnvPair kv = some p) : envPairOK p := by
  rcases kv with ⟨k, w⟩
  unfold sanitizeEnvPair at h
  by_cases ha : allowedEnvVars.contains k = false
  · rw [if_pos ha] at h; cases h
  · rw [if_neg ha] at h
    cases w <;> simp only [] at h <;> try cases h
    rename_i v
    by_cases hc : (envVarValidValues k).contains v = true
    · rw [if_pos hc] at h
      cases h
      show (if allowedEnvVars.contains k = false then none
            else if (envVarValidValues k).contains v = true then some (k, v)
            else none) = some (k, v)
      rw [if_neg ha, if_pos hc]
    · rw [if_neg hc] at h; cases h

/-- Membership after a JS object assignment: the element was already there
or is the assigned pair. -/
theorem mem_insertAssign {l : List (String × String)} {k v : String} :
    ∀ p ∈ insertAssign l k v, p ∈ l ∨ p = (k, v) := by
  induction l with
  | nil =>
    intro p hp
    right
    simpa [insertAssign] using hp
  | cons h0 rest ih =>
    rcases h0 with ⟨k0, v0⟩
    intro p hp
    unfold insertAssign at hp
    by_cases hk : (k0 == k) = true
    · rw [if_pos hk] at hp
      rcases List.mem_cons.1 hp with rfl | hpr
      · right
        have hk0 : k0 = k := by simpa using hk
        rw [hk0]
      · left; exact List.mem_cons_of_mem _ hpr
    · rw [if_neg hk] at hp
      rcases List.mem_cons.1 hp with rfl | hpr
      · left; exact List.mem_cons_self _ _
      · rcases ih p hpr with hmem | heq
        · left; exact List.mem_cons_of_mem _ hmem
        · right; exact heq

/-- The key list after a JS object assignment: unchanged on overwrite, the
key appended when fresh. -/
theorem insertAssign_keys (l : List (String × String)) (k v : String) :
    (insertAssign l k v).map Prod.fst =
      if (l.map Prod.fst).contains k then l.map Prod.fst
      else l.map Prod.fst ++ [k] := by
  induction l with
  | nil => simp [insertAssign]
  | cons h0 rest ih =>
    rcases h0 with ⟨k0, v0⟩
    unfold insertAssign
    by_cases hk : (k0 == k) = true
    · rw [if_pos hk]
      have hk0 : k0 = k := by simpa using hk
      subst hk0
      simp
    · rw [if_neg hk]
      have hkk : ¬ k0 = k := by simpa using hk
      have hne : (k == k0) = false := beq_eq_false_iff_ne.mpr (fun e => hkk e.symm)
      simp only [List.map_cons]
      rw [ih]
      simp only [List.contains_cons, hne, Bool.false_or]
      split_ifs <;> simp

/-- A fresh-key JS object assignment is an append. -/
theorem insertAssign_of_not_contains {l : List (String × String)} {k : String}
    (v : String) (h : (l.map Prod.fst).contains k = false) :
    insertAssign l k v = l ++ [(k, v)] := by
  induction l with
  | nil => rfl
  | cons h0 rest ih =>
    rcases h0 with ⟨k0, v0⟩
    simp only [List.map_cons, List.contains_cons, Bool.or_eq_false_iff] at h
    unfold insertAssign
    have hne0 : ¬ (k0 == k) = true := by
      intro hb
      have heq : k0 = k := by simpa using hb
      subst heq
      simp at h
    rw [if_neg hne0]
    rw [ih h.2]
    rfl

/-- Key freshness survives the assignment of nodup keys. -/
theorem insertAssign_nodup {l : List (String × String)} {k v : String}
    (h : (l.map Prod.fst).Nodup) :
    ((insertAssign l k v).map Prod.fst).Nodup := by
  rw [insertAssign_keys]
  split_ifs with hc
  · exact h
  · rw [List.nodup_append]
    refine ⟨h, List.nodup_singleton k, ?_⟩
    intro a ha hak
    rcases List.mem_singleton.1 hak with rfl
    have hmem : (l.map Prod.fst).contains a = true := by
      simpa using ha
    exact hc hmem

/-- The invariant of the accumulated environment list: entries revalidate
to themselves and keys are pairwise distinct. -/
def envListOK (l : List (String × String)) : Prop :=
  (∀ p ∈ l, envPairOK p) ∧ (l.map Prod.fst).Nodup

/-- The accumulation loop preserves the environment invariant. -/
theorem envFold_ok : ∀ (entries : List (String × JVal)) (acc : List (String × String)),
    envListOK acc →
    envListOK (entries.foldl (fun acc kv =>
      match sanitizeEnvPair kv with
      | some p => insertAssign acc p.1 p.2
      | none => acc) acc) := by
  intro entries
  induction entries with
  | nil => intro acc h; exact h
  | cons kv rest ih =>
    intro acc h
    simp only [List.foldl_cons]
    rcases hp : sanitizeEnvPair kv with _ | p
    · simp only [hp]
      exact ih acc h
    · simp only [hp]
      refine ih _ ⟨?_, insertAssign_nodup h.2⟩
      intro q hq
      rcases mem_insertAssign q hq with hmem | heq
      · exact h.1 q hmem
      · rw [heq]
        exact sanitizeEnvPair_stable hp

/-- Every sanitized environment list satisfies the invariant. -/
theorem sanitizeEnvList_ok (entries : List (String × JVal)) :
    envListOK (sanitizeEnvList entries) :=
  envFold_ok entries [] ⟨by simp, by simp⟩

/-- Re-running the accumulation loop over the encoded entries of an
invariant-satisfying list appends it unchanged. -/
theorem envFold_encode : ∀ (l : List (String × String)) (acc : List (String × String)),
    (∀ p ∈ l, envPairOK p) →
    ((acc.map Prod.fst ++ l.map Prod.fst).Nodup) →
    (l.map (fun p => (p.1, JVal.str p.2))).foldl (fun acc kv =>
      match sanitizeEnvPair kv with
      | some p => insertAssign acc p.1 p.2
      | none => acc) acc = acc ++ l := by
  intro l
  induction l with
  | nil => intro acc _ _; simp
  | cons p rest ih =>
    intro acc hok hnd
    simp only [List.map_cons, List.foldl_cons]
    have hsp : sanitizeEnvPair (p.1, JVal.str p.2) = some p :=
      hok p (List.mem_cons_self p rest)
    simp only [hsp]
    have hfresh : (acc.map Prod.fst).contains p.1 = false := by
      rcases List.nodup_append.1 (by simpa using hnd) with ⟨-, -, hdisj⟩
      cases hb : (acc.map Prod.fst).contains p.1
      · rfl
      · exfalso
        have hmem : p.1 ∈ acc.map Prod.fst := List.elem_iff.1 hb
        exact hdisj hmem (List.mem_cons_self _ _)
    rw [insertAssign_of_not_contains p.2 hfresh]
    rw [ih (acc ++ [p]) (fun q hq => hok q (List.mem_cons_of_mem p hq)) ?_]
    · simp
    · simpa using hnd

/-- Re-sanitizing the encoded environment object of an invariant-satisfying
list is the identity. -/
theorem sanitizeEnvList_encode {l : List (String × String)} (h : envListOK l) :
    sanitizeEnvList (l.map (fun p => (p.1, JVal.str p.2))) = l := by
  unfold sanitizeEnvList
  rw [envFold_encode l [] h.1 (by simpa using h.2)]
  rfl

/-- Both output components of the sanitizer satisfy their invariants, for
every input. -/
theorem sanitize_output_ok (x : JVal) :
    (∀ a ∈ (validateAndSanitizeVllmArgs x).args, argOutputOK a) ∧
    envListOK (validateAndSanitizeVllmArgs x).envVars := by
  unfold validateAndSanitizeVllmArgs
  by_cases ht : truthyObject x = false
  · rw [if_pos ht]
    exact ⟨by simp, by simp [envListOK], by simp⟩
  · rw [if_neg ht]
    constructor
    · rcases hg : jGet x "args" with _ | jv
      · simp
      · cases jv
        · simp
        · simp
        · simp
        · simp
        · exact sanitizeArgs_output_ok _
        · simp
    · rcases hg : jGet x "envVars" with _ | ev
      · exact ⟨by simp, by simp⟩
      · simp only []
        by_cases hte : truthyObject ev = true
        · rw [if_pos hte]
          exact sanitizeEnvList_ok _
        · rw [if_neg hte]
          exact ⟨by simp, by simp⟩

/-- C6: for every input, every argument name and every environment key in
the sanitizer output appears in the fixed whitelist schema. -/
theorem c6_sanitize_whitelist (input : JVal) :
    (∀ a ∈ (validateAndSanitizeVllmArgs input).args, a.arg ∈ schemaArgStrings) ∧
    (∀ kv ∈ (validateAndSanitizeVllmArgs input).envVars, kv.1 ∈ allowedEnvVars) := by
  obtain ⟨hargs, henv⟩ := sanitize_output_ok input
  constructor
  · intro a ha
    obtain ⟨cfg, hcfg, -⟩ := hargs a ha
    have hmem := List.mem_of_find?_eq_some hcfg
    have hpred := List.find?_some hcfg
    have harg : cfg.arg = a.arg := by simpa using hpred
    rw [← harg]
    exact List.mem_map_of_mem EngineField.arg hmem
  · intro kv hkv
    have hok := henv.1 kv hkv
    unfold envPairOK sanitizeEnvPair at hok
    by_cases hc : allowedEnvVars.contains kv.1 = false
    · rw [if_pos (by exact hc)] at hok
      cases hok
    · cases hb : allowedEnvVars.contains kv.1
      · exact absurd hb hc
      · exact List.elem_iff.1 hb

/-- Concrete payload for the C6 witness: one select argument and one
environment entry. -/
def c6input : JVal :=
  JVal.obj [("args", JVal.arr [JVal.obj [("arg", JVal.str "--dtype"),
                                         ("value", JVal.str "auto")]]),
            ("envVars", JVal.obj [("VLLM_USE_V1", JVal.str "1")])]

/-- C6 witness: the whitelist theorem applied to a concrete payload. -/
theorem c6_sanitize_whitelist_witness :
    (VllmArg.mk "--dtype" (ArgValue.str "auto")).arg ∈ schemaArgStrings ∧
    ("VLLM_USE_V1", "1").1 ∈ allowedEnvVars :=
  ⟨(c6_sanitize_whitelist c6input).1 (VllmArg.mk "--dtype" (ArgValue.str "auto")) (by decide),
   (c6_sanitize_whitelist c6input).2 ("VLLM_USE_V1", "1") (by decide)⟩

/-- C7: the sanitizer is idempotent: re-sanitizing the JSON value denoted
by its own output reproduces the output, for every input. -/
theorem c7_sanitize_idempotent (x : JVal) :
    validateAndSanitizeVllmArgs ((validateAndSanitizeVllmArgs x).toJVal) =
      validateAndSanitizeVllmArgs x := by
  obtain ⟨hargs, henv⟩ := sanitize_output_ok x
  set y := validateAndSanitizeVllmArgs x with hy
  have htr : truthyObject y.toJVal = true := rfl
  have harg : jGet y.toJVal "args" = some (JVal.arr (y.args.map encodeArg)) := rfl
  have henvget : jGet y.toJVal "envVars" =
      some (JVal.obj (y.envVars.map (fun p => (p.1, JVal.str p.2)))) := rfl
  show validateAndSanitizeVllmArgs y.toJVal = y
  unfold validateAndSanitizeVllmArgs
  rw [if_neg (by intro hf; rw [htr] at hf; cases hf)]
  rw [harg, henvget]
  show VllmArgsOutput.mk ((y.args.map encodeArg).filterMap sanitizeArgItem)
      (sanitizeEnvList (y.envVars.map (fun p => (p.1, JVal.str p.2)))) = y
  rw [sanitizeArgs_encode hargs, sanitizeEnvList_encode henv]

/-- Inversion of a boolean-field acceptance: the item was a truthy object
whose `arg` is the flag name and whose `value` is the literal null, and the
emitted value is the value-less null. -/
theorem sanitizeArgItem_boolean_inv {item : JVal} {a : VllmArg} {barg : String}
    (hb : argToConfig a.arg = some (EngineField.boolean barg))
    (h : sanitizeArgItem item = some a) :
    truthyObject item = true ∧ jGet item "arg" = some (JVal.str a.arg) ∧
      jGet item "value" = some JVal.null ∧ a.value = ArgValue.null := by
  unfold sanitizeArgItem at h
  split at h
  · cases h
  · rename_i htr
    split at h
    all_goals try cases h
    rename_i aName hget
    split at h
    all_goals try cases h
    rename_i cfg hcfg
    rcases hsv : sanitizeArgValue cfg (jGet item "value") with _ | v
    · rw [hsv] at h; cases h
    · rw [hsv] at h
      simp only [Option.map_some'] at h
      cases h
      have hc : cfg = EngineField.boolean barg := by
        have hbb := hb
        rw [hcfg] at hbb
        exact Option.some.inj hbb
      subst hc
      have hval : jGet item "value" = some JVal.null ∧ v = ArgValue.null := by
        cases hjv : jGet item "value" with
        | none => rw [hjv] at hsv; cases hsv
        | some jv =>
          rw [hjv] at hsv
          cases jv <;> simp only [sanitizeArgValue] at hsv <;> try cases hsv
          exact ⟨rfl, rfl⟩
      refine ⟨?_, hget, hval.1, hval.2⟩
      cases htb : truthyObject item
      · exact absurd htb htr
      · rfl

/-- Construction of a boolean-field acceptance from a truthy object with the
flag name and the literal null value. -/
theorem sanitizeArgItem_boolean_mk {item : JVal} {carg : String}
    (hb : argToConfig carg = some (EngineField.boolean carg))
    (ht : truthyObject item = true) (ha : jGet item "arg" = some (JVal.str carg))
    (hv : jGet item "value" = some JVal.null) :
    sanitizeArgItem item = some (VllmArg.mk carg ArgValue.null) := by
  unfold sanitizeArgItem
  rw [if_neg (by intro hf; rw [ht] at hf; cases hf)]
  rw [ha]
  show (match argToConfig carg with
        | some cfg => (sanitizeArgValue cfg (jGet item "value")).map
            (fun v => VllmArg.mk carg v)
        | none => none) = some (VllmArg.mk carg ArgValue.null)
  rw [hb, hv]
  rfl

/-- C8 counterexample payload: the boolean flag supplied as the literal
`true`. -/
def c8cex : JVal :=
  JVal.obj [("args", JVal.arr [JVal.obj [("arg", JVal.str "--enforce-eager"),
                                         ("value", JVal.bool true)]]),
            ("envVars", JVal.obj [])]

/-- C8 counterexample: `--enforce-eager` is a boolean schema field, yet a
payload supplying the literal `true` for it yields no output entry at all,
refuting the claim that `true` is accepted and emitted as a value-less
flag. -/
theorem c8_boolean_true_counterexample :
    argToConfig "--enforce-eager" = some (EngineField.boolean "--enforce-eager") ∧
    (validateAndSanitizeVllmArgs c8cex).args = [] := by
  decide

/-- C8 (amended): for every untrusted payload and boolean schema field, the
sanitizer emits the flag only with the value-less null value (never an
explicit boolean), and it emits the flag exactly when the payload's `args`
array holds a truthy object item naming the flag with the literal null
value; any other supplied value, including the literal `true` or `false`,
and any omission produce no entry. -/
theorem c8_boolean_flag_handling (input : JVal) (carg : String)
    (hb : argToConfig carg = some (EngineField.boolean carg)) :
    (∀ a ∈ (validateAndSanitizeVllmArgs input).args, a.arg = carg → a.value = ArgValue.null) ∧
    ((∃ a ∈ (validateAndSanitizeVllmArgs input).args, a.arg = carg) ↔
      (∃ items, truthyObject input = true ∧
        jGet input "args" = some (JVal.arr items) ∧
        ∃ item ∈ items, truthyObject item = true ∧
          jGet item "arg" = some (JVal.str carg) ∧
          jGet item "value" = some JVal.null)) := by
  constructor
  · intro a ha hcar
    obtain ⟨cfg, hcfg, hstable⟩ := (sanitize_output_ok input).1 a ha
    rw [hcar, hb] at hcfg
    injection hcfg with hcfg'
    rcases hv : a.value with _ | s | q
    · rfl
    · rw [← hcfg', hv] at hstable
      simp [sanitizeArgValue, ArgValue.toJVal] at hstable
    · rw [← hcfg', hv] at hstable
      simp [sanitizeArgValue, ArgValue.toJVal] at hstable
  · constructor
    · rintro ⟨a, ha, hcar⟩
      by_cases htr : truthyObject input = false
      · unfold validateAndSanitizeVllmArgs at ha
        rw [if_pos htr] at ha
        simp at ha
      · unfold validateAndSanitizeVllmArgs at ha
        rw [if_neg htr] at ha
        have htru : truthyObject input = true := by
          cases htb : truthyObject input
          · exact absurd htb htr
          · rfl
        rcases hg : jGet input "args" with _ | jv
        · rw [hg] at ha; simp at ha
        · rw [hg] at ha
          cases jv <;> simp only [] at ha <;> try simp at ha
          rename_i items
          obtain ⟨item, hitem, hsan⟩ := ha
          obtain ⟨ht1, ht2, ht3, -⟩ :=
            sanitizeArgItem_boolean_inv (by rw [hcar]; exact hb) hsan
          rw [hcar] at ht2
          exact ⟨items, htru, rfl, item, hitem, ht1, ht2, ht3⟩
    · rintro ⟨items, htru, hg, item, hitem, hti, hta, htv⟩
      have hmk := sanitizeArgItem_boolean_mk hb hti hta htv
      refine ⟨VllmArg.mk carg ArgValue.null, ?_, rfl⟩
      unfold validateAndSanitizeVllmArgs
      rw [if_neg (by intro hf; rw [htru] at hf; cases hf)]
      show VllmArg.mk carg ArgValue.null ∈
        (match jGet input "args" with
         | some (JVal.arr items) => items.filterMap sanitizeArgItem
         | _ => [])
      rw [hg]
      show VllmArg.mk carg ArgValue.null ∈ items.filterMap sanitizeArgItem
      exact List.mem_filterMap.2 ⟨item, hitem, hmk⟩

/-- Concrete payload for the C8 witness: the flag supplied value-less. -/
def c8winput : JVal :=
  JVal.obj [("args", JVal.arr [JVal.obj [("arg", JVal.str "--enforce-eager"),
                                         ("value", JVal.null)]]),
            ("envVars", JVal.obj [])]

/-- C8 witness: the boolean-flag theorem applied to a concrete payload and
the `--enforce-eager` schema field. -/
theorem c8_boolean_flag_handling_witness :
    (∀ a ∈ (validateAndSanitizeVllmArgs c8winput).args,
      a.arg = "--enforce-eager" → a.value = ArgValue.null) ∧
    ((∃ a ∈ (validateAndSanitizeVllmArgs c8winput).args, a.arg = "--enforce-eager") ↔
      (∃ items, truthyObject c8winput = true ∧
        jGet c8winput "args" = some (JVal.arr items) ∧
        ∃ item ∈ items, truthyObject item = true ∧
          jGet item "arg" = some (JVal.str "--enforce-eager") ∧
          jGet item "value" = some JVal.null)) :=
  c8_boolean_flag_handling c8winput "--enforce-eager" (by decide)

/-! ## GGUF URL validation (src/lib/huggingface.ts) -/

/-- Model of JS `s.endsWith(sfx)`. -/
def endsWithStr (s sfx : String) : Bool := sfx.data.isSuffixOf s.data

/-- Model of JS `s.toLowerCase()` on the ASCII inputs the code handles. -/
def toLowerStr (s : String) : String := String.mk (s.data.map Char.toLower)

/-- A parsed URL, restricted to the two members the validator reads. -/
structure URLParsed where
  hostname : String
  pathname : String
deriving DecidableEq, Repr

/-- Modelled from the spec: the WHATWG `URL` constructor used by
`validateGgufUrl` is a platform builtin, not code of this repository.  The
model parses absolute `scheme://host/path` references: an alphabetic
scheme, `://`, a nonempty host (lowercased, as the platform normalizes it),
and the path from the first slash (defaulting to `/`).  Userinfo, ports,
queries and fragments are outside the model; `none` models the constructor
throwing. -/
def parseURL (url : String) : Option URLParsed :=
  let cs := url.data
  let scheme := cs.takeWhile (fun c => c ≠ ':')
  match cs.drop scheme.length with
  | ':' :: '/' :: '/' :: tail =>
    if scheme.isEmpty then none
    else if scheme.all Char.isAlpha = false then none
    else
      let hostPart := tail.takeWhile (fun c => c ≠ '/')
      let pathPart := tail.drop hostPart.length
      if hostPart.isEmpty then none
      else some { hostname := String.mk (hostPart.map Char.toLower),
                  pathname := if pathPart.isEmpty then "/" else String.mk pathPart }
  | _ => none

/-- The result type of `validateGgufUrl`. -/
structure GgufValidation where
  valid : Bool
  error : Option String
deriving DecidableEq, Repr

/-- Embedding of `validateGgufUrl`: reject the empty reference, reject what
the URL constructor throws on, require a hostname ending in
`huggingface.co` and a case-insensitively `.gguf`-ending pathname. -/
def validateGgufUrl (url : String) : GgufValidation :=
  if url = "" then { valid := false, error := some "GGUF URL is required" }
  else
    match parseURL url with
    | none => { valid := false, error := some "Invalid URL format" }
    | some parsed =>
      if endsWithStr parsed.hostname "huggingface.co" = false then
        { valid := false,
          error := some "GGUF files must be hosted on Hugging Face (huggingface.co)" }
      else if endsWithStr (toLowerStr parsed.pathname) ".gguf" = false then
        { valid := false, error := some "URL must point to a .gguf file" }
      else { valid := true, error := none }

/-- C5 counterexample: the hostname check is a suffix test, not an equality
test: a URL on the unrelated domain `evilhuggingface.co` is accepted,
refuting the claim that acceptance requires the host to be the trusted
domain `huggingface.co`. -/
theorem c5_gguf_host_counterexample :
    (validateGgufUrl "https://evilhuggingface.co/model.gguf").valid = true ∧
    parseURL "https://evilhuggingface.co/model.gguf" =
      some ⟨"evilhuggingface.co", "/model.gguf"⟩ ∧
    "evilhuggingface.co" ≠ "huggingface.co" := by
  decide

/-- C5 (amended): `validateGgufUrl` accepts exactly the nonempty references
that parse as absolute URLs whose hostname merely ends with the characters
`huggingface.co` (so subdomains and lookalike domains pass) and whose
lowercased pathname ends in `.gguf`. -/
theorem c5_gguf_url_validation (url : String) :
    (validateGgufUrl url).valid = true ↔
      (url ≠ "" ∧ ∃ p, parseURL url = some p ∧
        endsWithStr p.hostname "huggingface.co" = true ∧
        endsWithStr (toLowerStr p.pathname) ".gguf" = true) := by
  unfold validateGgufUrl
  by_cases h0 : url = ""
  · rw [if_pos h0]
    simp [h0]
  · rw [if_neg h0]
    rcases hp : parseURL url with _ | p
    · simp [h0]
    · by_cases hh : endsWithStr p.hostname "huggingface.co" = false
      · simp [h0, hh]
      · have hh' : endsWithStr p.hostname "huggingface.co" = true := by
          cases hb : endsWithStr p.hostname "huggingface.co"
          · exact absurd hb hh
          · rfl
        by_cases hg : endsWithStr (toLowerStr p.pathname) ".gguf" = false
        · simp [h0, hh', hg]
        · have hg' : endsWithStr (toLowerStr p.pathname) ".gguf" = true := by
            cases hb : endsWithStr (toLowerStr p.pathname) ".gguf"
            · exact absurd hb hg
            · rfl
          simp [h0, hh', hg']

/-- C5 witness: a canonical hosted file accepted through the amended
characterization. -/
theorem c5_gguf_url_validation_witness :
    (validateGgufUrl "https://huggingface.co/org/repo/file.gguf").valid = true :=
  (c5_gguf_url_validation "https://huggingface.co/org/repo/file.gguf").2
    ⟨by decide, ⟨⟨"huggingface.co", "/org/repo/file.gguf"⟩, by decide, by decide, by decide⟩⟩

/-! ## Intake deduplication (src/app/api/submissions/route.ts) -/

/-- The `HFModelInfo` fields the intake keeps. -/
structure HFModelInfo where
  id : String
  disabled : Bool
deriving DecidableEq, Repr

/-- Embedding of the `ModelValidationResult` interface declared in
src/lib/huggingface.ts: `valid`, an optional `error`, an optional
`modelInfo` - and nothing else.  In particular `validateHuggingFaceModel`
never produces a normalized model identifier. -/
structure ModelValidationResult where
  valid : Bool
  error : Option String
  modelInfo : Option HFModelInfo
deriving DecidableEq, Repr

/-- The route reads `validation.normalizedModelId`, a property absent from
`ModelValidationResult`: the validator never sets it and the declared type
has no such member (the TypeScript compiler rejects the access).  At
JavaScript runtime the access would evaluate to `undefined`, modelled as
`none` for every validation result. -/
def normalizedModelIdOf (_ : ModelValidationResult) : Option String := none

/-- One leaderboard row (the `elo_ratings` column the dedup reads). -/
structure EloRating where
  model_name : String
deriving DecidableEq, Repr

/-- Model of the Prisma `findFirst` with the case-insensitive `equals`
filter on `model_name`.  Prisma treats an `undefined` filter value as an
omitted condition: with no identifier the query matches every row and
returns the first. -/
def eloFindFirst (lb : List EloRating) (ident : Option String) : Option EloRating :=
  match ident with
  | some m => lb.find? (fun r => toLowerStr r.model_name == toLowerStr m)
  | none => lb.head?

/-- The leaderboard-duplicate stage of the intake POST for a validated
HuggingFace submission: the identifier passed to the query is the
validation result's (nonexistent) `normalizedModelId`, and the submission
is rejected when the query returns a row. -/
def hfLeaderboardDuplicate (lb : List EloRating)
    (validation : ModelValidationResult) : Bool :=
  (eloFindFirst lb (normalizedModelIdOf validation)).isSome

/-- C1: evaluation at the failing input.  The validator never produces the
normalized identifier the dedup stage reads, so for a validated submission
of "org/model-a" against a leaderboard holding only "other/model-b" the
degenerate filter matches the unrelated row and the submission is rejected
as a leaderboard duplicate although no case-insensitive match exists. -/
theorem c1_dedup_missing_identifier :
    (∀ v : ModelValidationResult, normalizedModelIdOf v = none) ∧
    hfLeaderboardDuplicate [⟨"other/model-b"⟩]
      ⟨true, none, some ⟨"org/model-a", false⟩⟩ = true ∧
    toLowerStr "other/model-b" ≠ toLowerStr "org/model-a" :=
  ⟨fun _ => rfl, by decide, by decide⟩

end OWL
